import Mathlib

/-!
Verification development for the markdown-to-notion conversion service
(src/services/htmlToNotionService.ts and src/routes/markdown.ts).

Strings are embedded as `List Char` (the TypeScript code manipulates
JavaScript strings index-by-index; a character list makes that faithful and
executable).  Regular-expression operations of the source are embedded as
explicit scanning functions with the same leftmost-match, greedy/lazy
semantics as the JavaScript regexes they translate.  Loops whose index can
jump forward (e.g. `i = closeTag + 9`) are embedded with a fuel parameter
set to `length + 1`; every iteration of the corresponding source loop
consumes at least one input character, so this fuel is never exhausted and
the fueled function computes exactly the source loop.
-/

/-- Strings of the source are embedded as lists of characters. -/
abbrev Str := List Char

/-- Shorthand turning a Lean string literal into the `List Char` embedding. -/
def str (s : String) : Str := s.data

/-- ASCII whitespace as matched by the JavaScript `\s` class and `trim()`
(space, tab, newline, carriage return, vertical tab, form feed). -/
def isSpaceChar (c : Char) : Bool :=
  c = ' ' ∨ c = '\t' ∨ c = '\n' ∨ c = '\r' ∨ c = Char.ofNat 11 ∨ c = Char.ofNat 12

/-- A character of the JavaScript `\w` class: ASCII letter, digit or underscore. -/
def isWordChar (c : Char) : Bool :=
  ('a' ≤ c ∧ c ≤ 'z') ∨ ('A' ≤ c ∧ c ≤ 'Z') ∨ ('0' ≤ c ∧ c ≤ '9') ∨ c = '_'

/-- JavaScript `String.prototype.trim()`: drop whitespace from both ends. -/
def trimChars (l : Str) : Str :=
  ((l.dropWhile isSpaceChar).reverse.dropWhile isSpaceChar).reverse

/-- Index of the first suffix of `s` satisfying `p` (used to embed
`indexOf` searches and lazy `(.*?)` regex scans). -/
def findIdxWhere (p : Str → Bool) : Str → Option Nat
  | [] => if p [] then some 0 else none
  | c :: rest => if p (c :: rest) then some 0 else (findIdxWhere p rest).map (· + 1)

/-- Index of the first occurrence of the substring `pat` in `s`
(JavaScript `s.indexOf(pat)`). -/
def findSubIdx (pat : Str) (s : Str) : Option Nat :=
  findIdxWhere (fun t => pat.isPrefixOf t) s

/-- Index of the first occurrence of character `c` (JavaScript `indexOf`). -/
def findChar (c : Char) (s : Str) : Option Nat :=
  findIdxWhere (fun t => t.head? = some c) s

/-- Whether `pat` occurs as a substring of `s` (JavaScript `includes`). -/
def containsSub (pat : Str) (s : Str) : Bool :=
  (findSubIdx pat s).isSome

/-- Leftmost-match scan: try the single-position matcher `try1` at every
position of the string, left to right, as a JavaScript regex search does. -/
def scanFor {α : Type} (try1 : Str → Option α) : Str → Option α
  | [] => try1 []
  | c :: rest =>
    match try1 (c :: rest) with
    | some x => some x
    | none => scanFor try1 rest

/-! ## stripHtmlTags (source lines 545-559)

`stripHtmlTags` removes every `<...>` span, then decodes the five entities
`&lt; &gt; &amp; &quot; &#39;` in that order, then trims. -/

/-- One step of `text.replace(/<[^>]*>/g, '')`: on `<`, if a `>` follows
anywhere, the whole span up to and including it is dropped; with no `>`
left the regex can no longer match and the rest is kept verbatim. -/
def removeTagsAux : Nat → Str → Str
  | 0, s => s
  | _ + 1, [] => []
  | fuel + 1, '<' :: rest =>
    match findChar '>' rest with
    | some j => removeTagsAux fuel (rest.drop (j + 1))
    | none => '<' :: rest
  | fuel + 1, c :: rest => c :: removeTagsAux fuel rest

/-- `text.replace(/<[^>]*>/g, '')`. -/
def removeTags (s : Str) : Str := removeTagsAux (s.length + 1) s

/-- `text.replace(/&lt;/g, '<')`, left to right, single pass. -/
def decodeLt : Str → Str
  | '&' :: 'l' :: 't' :: ';' :: rest => '<' :: decodeLt rest
  | c :: rest => c :: decodeLt rest
  | [] => []

/-- `text.replace(/&gt;/g, '>')`. -/
def decodeGt : Str → Str
  | '&' :: 'g' :: 't' :: ';' :: rest => '>' :: decodeGt rest
  | c :: rest => c :: decodeGt rest
  | [] => []

/-- `text.replace(/&amp;/g, '&')`. -/
def decodeAmp : Str → Str
  | '&' :: 'a' :: 'm' :: 'p' :: ';' :: rest => '&' :: decodeAmp rest
  | c :: rest => c :: decodeAmp rest
  | [] => []

/-- `text.replace(/&quot;/g, '"')`. -/
def decodeQuot : Str → Str
  | '&' :: 'q' :: 'u' :: 'o' :: 't' :: ';' :: rest => '"' :: decodeQuot rest
  | c :: rest => c :: decodeQuot rest
  | [] => []

/-- `text.replace(/&#39;/g, "'")`. -/
def decodeApos : Str → Str
  | '&' :: '#' :: '3' :: '9' :: ';' :: rest => '\'' :: decodeApos rest
  | c :: rest => c :: decodeApos rest
  | [] => []

/-- `stripHtmlTags` of the source: remove tags, decode the five entities in
source order, trim. -/
def stripHtmlTags (html : Str) : Str :=
  trimChars (decodeApos (decodeQuot (decodeAmp (decodeGt (decodeLt (removeTags html))))))

/-! ## Rich text runs and the inline tokenizer (htmlToRichText, lines 454-540) -/

/-- The `annotations` object attached to a rich text run.  The source omits
the object entirely for plain runs; that is the all-default value here
(the remote API treats a missing annotation as its default). -/
structure RTAnnotations where
  bold : Bool := false
  italic : Bool := false
  code : Bool := false
  strikethrough : Bool := false
  color : Option Str := none
deriving DecidableEq

/-- One rich text run: `{ type: 'text', text: { content }, annotations? }`. -/
structure RichTextItem where
  content : Str
  annotations : RTAnnotations := {}
deriving DecidableEq

/-- Flush of the accumulated plain text: the source pushes a run only when
the pending text is non-empty. -/
def flushRun (cur : Str) : List RichTextItem :=
  if cur = [] then [] else [{ content := cur }]

/-- The character-by-character loop of `htmlToRichText`.  On `<` the pending
plain text is flushed, the tag is read up to the next `>` (bailing out of
the loop if there is none), and the four recognized opening tags each seek
their literal closing tag, emitting a single styled run with
`stripHtmlTags` applied to the inner text; an unmatched or unrecognized
tag is skipped.  Fueled: each iteration consumes at least one character. -/
def rtLoop : Nat → Str → Str → List RichTextItem → List RichTextItem
  | 0, _, cur, acc => acc ++ flushRun cur
  | _ + 1, [], cur, acc => acc ++ flushRun cur
  | fuel + 1, c :: rest, cur, acc =>
    if c = '<' then
      let acc1 := acc ++ flushRun cur
      match findChar '>' rest with
      | none => acc1
      | some j =>
        let tag : Str := '<' :: rest.take (j + 1)
        let rest2 := rest.drop (j + 1)
        if (str "<strong>").isPrefixOf tag then
          match findSubIdx (str "</strong>") rest2 with
          | some k =>
            rtLoop fuel (rest2.drop (k + 9)) []
              (acc1 ++ [{ content := stripHtmlTags (rest2.take k),
                          annotations := { bold := true } }])
          | none => rtLoop fuel rest2 [] acc1
        else if (str "<em>").isPrefixOf tag then
          match findSubIdx (str "</em>") rest2 with
          | some k =>
            rtLoop fuel (rest2.drop (k + 5)) []
              (acc1 ++ [{ content := stripHtmlTags (rest2.take k),
                          annotations := { italic := true } }])
          | none => rtLoop fuel rest2 [] acc1
        else if (str "<code>").isPrefixOf tag then
          match findSubIdx (str "</code>") rest2 with
          | some k =>
            rtLoop fuel (rest2.drop (k + 7)) []
              (acc1 ++ [{ content := stripHtmlTags (rest2.take k),
                          annotations := { code := true } }])
          | none => rtLoop fuel rest2 [] acc1
        else if (str "<del>").isPrefixOf tag ∨ (str "<s>").isPrefixOf tag then
          match findSubIdx (str "</del>") rest2 with
          | some k =>
            rtLoop fuel (rest2.drop (k + 6)) []
              (acc1 ++ [{ content := stripHtmlTags (rest2.take k),
                          annotations := { strikethrough := true } }])
          | none =>
            match findSubIdx (str "</s>") rest2 with
            | some k =>
              rtLoop fuel (rest2.drop (k + 4)) []
                (acc1 ++ [{ content := stripHtmlTags (rest2.take k),
                            annotations := { strikethrough := true } }])
            | none => rtLoop fuel rest2 [] acc1
        else rtLoop fuel rest2 [] acc1
    else rtLoop fuel rest (cur ++ [c]) acc

/-- `htmlToRichText` of the source: run the loop, and if it produced no run
at all fall back to a single plain run holding the whole input verbatim. -/
def htmlToRichText (html : Str) : List RichTextItem :=
  let richText := rtLoop (html.length + 1) html [] []
  if richText = [] then [{ content := html }] else richText

/-! ## Language normalizer (normalizeLanguage, lines 405-449) -/

/-- The alias table of `normalizeLanguage`. -/
def languageMap : List (Str × Str) :=
  [ (str "js", str "javascript"), (str "ts", str "typescript"),
    (str "py", str "python"), (str "rb", str "ruby"),
    (str "sh", str "shell"), (str "bash", str "shell"), (str "zsh", str "shell"),
    (str "yml", str "yaml"), (str "md", str "markdown"),
    (str "jsx", str "javascript"), (str "tsx", str "typescript") ]

/-- Lookup in the alias table (first matching key; the source object has
distinct keys so first and last coincide). -/
def languageMapLookup (l : Str) : Option Str :=
  (languageMap.find? (fun p => p.1 = l)).map (fun p => p.2)

/-- The supported-language allow-list of `normalizeLanguage`. -/
def supportedLanguages : List Str :=
  [ str "javascript", str "typescript", str "python", str "java", str "c",
    str "c++", str "c#", str "ruby", str "go", str "rust", str "php",
    str "swift", str "kotlin", str "scala", str "html", str "css",
    str "scss", str "sass", str "less", str "json", str "xml", str "yaml",
    str "markdown", str "sql", str "shell", str "bash", str "powershell",
    str "dockerfile", str "docker", str "makefile", str "plain text" ]

/-- `normalizeLanguage`: empty or already canonical input passes through;
otherwise lower-case and trim, consult the alias table, then the
allow-list, else fall back to the plain-text identifier. -/
def normalizeLanguage (language : Str) : Str :=
  if language = [] ∨ language = str "plain text" then str "plain text"
  else
    let l := trimChars (language.map Char.toLower)
    match languageMapLookup l with
    | some v => v
    | none => if l ∈ supportedLanguages then l else str "plain text"

/-! ## Code-block pre-pass (preprocessCodeBlocks, lines 394-400) and its
reversal in the block builder (line 620) -/

/-- Interior of the pre-pass replacement `content.replace(/\n/g, '\\n')`:
each newline becomes the two-character sequence backslash-n. -/
def escapeCodeNewlines (s : Str) : Str :=
  s.flatMap (fun c => if c = '\n' then ['\\', 'n'] else [c])

/-- The block builder reversal `element.content.replace(/\\n/g, '\n')`:
each literal backslash-n pair (leftmost, non-overlapping) becomes a
newline. -/
def restoreCodeNewlines : Str → Str
  | [] => []
  | [c] => [c]
  | c :: d :: rest =>
    if c = '\\' ∧ d = 'n' then '\n' :: restoreCodeNewlines rest
    else c :: restoreCodeNewlines (d :: rest)

/-- Whether the string contains a literal backslash immediately followed by
the letter n (the two-character sequence the escape also produces). -/
def hasBackslashN : Str → Bool
  | [] => false
  | [_] => false
  | c :: d :: rest => (c = '\\' ∧ d = 'n') ∨ hasBackslashN (d :: rest)

/-- One attempt of the pre-pass regex
`/<pre><code([^>]*)>([\s\S]*?)<\/code><\/pre>/` at the current position:
returns the attribute capture, the interior capture and the suffix after
the whole match. -/
def matchPreCode (s : Str) : Option (Str × Str × Str) :=
  if (str "<pre><code").isPrefixOf s then
    let r := s.drop 10
    let attrs := r.takeWhile (fun c => c ≠ '>')
    match r.drop attrs.length with
    | '>' :: r2 =>
      match findSubIdx (str "</code></pre>") r2 with
      | some j => some (attrs, r2.take j, r2.drop (j + 13))
      | none => none
    | _ => none
  else none

/-- The global-replace scan of `preprocessCodeBlocks`: leftmost match,
interior newlines escaped, scanning resumes after the rebuilt span. -/
def preprocessAux : Nat → Str → Str
  | 0, s => s
  | _ + 1, [] => []
  | fuel + 1, c :: rest =>
    match matchPreCode (c :: rest) with
    | some (attrs, content, suffix) =>
      str "<pre><code" ++ attrs ++ ['>'] ++ escapeCodeNewlines content ++
        str "</code></pre>" ++ preprocessAux fuel suffix
    | none => c :: preprocessAux fuel rest

/-- `preprocessCodeBlocks` of the source. -/
def preprocessCodeBlocks (html : Str) : Str := preprocessAux (html.length + 1) html

/-! ## HTML element scanner (parseHtmlElements, lines 268-389) -/

/-- The attributes slot of a scanned element: absent, the parsed attribute
pairs of an `img` tag, the normalized `language` of a code block, or the
`cells` of a table row. -/
inductive ElemAttrs where
  | noAttrs : ElemAttrs
  | imgAttrs (attrs : List (Str × Str)) : ElemAttrs
  | lang (language : Str) : ElemAttrs
  | cells (cells : List Str) : ElemAttrs
deriving DecidableEq

/-- One scanned element `{tag, content, attributes?}`. -/
structure ScannedElement where
  tag : String
  content : Str
  attributes : ElemAttrs := .noAttrs
deriving DecidableEq

/-- One attempt of the attribute regex `/(\w+)=["']([^"']*)["']/` at the
current position: a maximal word run, `=`, either quote, a run free of
both quote characters, either quote.  Returns the pair and the suffix
after the match. -/
def tryAttrAt (s : Str) : Option ((Str × Str) × Str) :=
  let w := s.takeWhile isWordChar
  if w = [] then none
  else
    match s.drop w.length with
    | '=' :: q :: rest =>
      if q = '"' ∨ q = '\'' then
        let v := rest.takeWhile (fun c => c ≠ '"' ∧ c ≠ '\'')
        match rest.drop v.length with
        | q2 :: rest2 => if q2 = '"' ∨ q2 = '\'' then some ((w, v), rest2) else none
        | [] => none
      else none
    | _ => none

/-- The global scan of `parseAttributes`: collect every match left to
right, resuming after each match. -/
def parseAttributesAux : Nat → Str → List (Str × Str)
  | 0, _ => []
  | _ + 1, [] => []
  | fuel + 1, c :: rest =>
    match tryAttrAt (c :: rest) with
    | some (kv, after) => kv :: parseAttributesAux fuel after
    | none => parseAttributesAux fuel rest

/-- `parseAttributes` of the source. -/
def parseAttributes (s : Str) : List (Str × Str) := parseAttributesAux (s.length + 1) s

/-- Attribute lookup: the source stores matches into a JavaScript object,
so a duplicated name keeps the last value. -/
def getAttr (attrs : List (Str × Str)) (k : Str) : Option Str :=
  attrs.foldl (fun acc p => if p.1 = k then some p.2 else acc) none

/-- One attempt of `/<img\s+([^>]*)\s*\/?>/` at the current position:
literal `<img`, at least one whitespace character, then (after regex
backtracking) the capture runs to the first `>`. -/
def tryImgAt (s : Str) : Option Str :=
  if (str "<img").isPrefixOf s then
    let r := s.drop 4
    let w := r.takeWhile isSpaceChar
    if w = [] then none
    else
      let r2 := r.drop w.length
      (findChar '>' r2).map (fun j => r2.take j)
  else none

/-- Whether a suffix begins with a heading closer `</h[1-6]>`. -/
def isHeadingCloser : Str → Bool
  | '<' :: '/' :: 'h' :: d :: '>' :: _ => '1' ≤ d ∧ d ≤ '6'
  | _ => false

/-- One attempt of `/<h([1-6])>(.*?)<\/h[1-6]>/` at the current position:
returns the digit character and the lazy inner capture. -/
def tryHeadingAt (s : Str) : Option (Char × Str) :=
  match s with
  | '<' :: 'h' :: d :: '>' :: rest =>
    if '1' ≤ d ∧ d ≤ '6' then
      (findIdxWhere isHeadingCloser rest).map (fun j => (d, rest.take j))
    else none
  | _ => none

/-- One attempt of
`/<pre><code(?:\s+class="([^"]*)")?>([\s\S]*?)<\/code><\/pre>/`
at the current position: returns the optional class capture and the lazy
interior capture. -/
def tryCodeAt (s : Str) : Option (Option Str × Str) :=
  if (str "<pre><code").isPrefixOf s then
    let r := s.drop 10
    let withClass : Option (Str × Str) :=
      let w := r.takeWhile isSpaceChar
      if w = [] then none
      else
        let r2 := r.drop w.length
        if (str "class=\"").isPrefixOf r2 then
          let r3 := r2.drop 7
          let v := r3.takeWhile (fun c => c ≠ '"')
          match r3.drop v.length with
          | '"' :: '>' :: rest => some (v, rest)
          | _ => none
        else none
    match withClass with
    | some (v, rest) =>
      (findSubIdx (str "</code></pre>") rest).map (fun j => (some v, rest.take j))
    | none =>
      match r with
      | '>' :: rest =>
        (findSubIdx (str "</code></pre>") rest).map (fun j => (none, rest.take j))
      | _ => none
  else none

/-- One attempt of a fixed open/close tag pair with a lazy inner capture,
embedding `/<open>(.*?)<\/open>/` for blockquote, li, tr and p. -/
def tryTagAt (openT closeT : Str) (s : Str) : Option Str :=
  if openT.isPrefixOf s then
    let r := s.drop openT.length
    (findSubIdx closeT r).map (fun j => r.take j)
  else none

/-- Whether a suffix begins with a table cell opener `<th>` or `<td>`. -/
def isCellOpen : Str → Bool
  | '<' :: 't' :: x :: '>' :: _ => x = 'h' ∨ x = 'd'
  | _ => false

/-- Whether a suffix begins with a table cell closer `</th>` or `</td>`. -/
def isCellClose : Str → Bool
  | '<' :: '/' :: 't' :: x :: '>' :: _ => x = 'h' ∨ x = 'd'
  | _ => false

/-- The global scan of `/<t[hd]>(.*?)<\/t[hd]>/g` over a row: raw cell
captures in order, resuming after each match. -/
def extractRawCells : Nat → Str → List Str
  | 0, _ => []
  | _ + 1, [] => []
  | fuel + 1, c :: rest =>
    if isCellOpen (c :: rest) then
      let r := (c :: rest).drop 4
      match findIdxWhere isCellClose r with
      | some j => r.take j :: extractRawCells fuel (r.drop (j + 5))
      | none => extractRawCells fuel rest
    else extractRawCells fuel rest

/-- The scanner's cell extraction: each raw capture is passed through
`stripHtmlTags`. -/
def extractCells (row : Str) : List Str :=
  (extractRawCells (row.length + 1) row).map stripHtmlTags

/-- The class-name cleanup `language.replace(/.*language-([^\s]+).*/, '$1')`:
the greedy leading `.*` selects the last occurrence of `language-`
followed by at least one non-whitespace character; if there is none the
replace does not fire and the string is returned unchanged. -/
def tryLangAt (s : Str) : Option Str :=
  if (str "language-").isPrefixOf s then
    let t := (s.drop 9).takeWhile (fun c => ¬ isSpaceChar c)
    if t = [] then none else some t
  else none

/-- Last-position search used by the greedy `.*language-` cleanup. -/
def lastLangCapture : Str → Option Str
  | [] => none
  | c :: rest =>
    match lastLangCapture rest with
    | some x => some x
    | none => tryLangAt (c :: rest)

/-- The scanner's language cleanup for a code block class capture. -/
def cleanLanguage (language : Str) : Str :=
  if containsSub (str "language-") language then
    match lastLangCapture language with
    | some cap => cap
    | none => language
  else language

/-- Whether the line holds a table structural tag
`/<\/?table>|<\/?thead>|<\/?tbody>/` (such lines are dropped). -/
def hasTableStructTag (t : Str) : Bool :=
  containsSub (str "<table>") t ∨ containsSub (str "</table>") t ∨
  containsSub (str "<thead>") t ∨ containsSub (str "</thead>") t ∨
  containsSub (str "<tbody>") t ∨ containsSub (str "</tbody>") t

/-- Classification of one non-blank line by the scanner's ordered rules:
image, heading, code block, blockquote, list item, table row, table
structural tag (dropped), paragraph (dropped when blank), and finally
plain text that neither starts with `<` nor ends with `>`. -/
def classifyLine (line : Str) : Option ScannedElement :=
  let t := trimChars line
  if t = [] then none
  else
    match scanFor tryImgAt t with
    | some attrStr => some { tag := "img", content := [], attributes := .imgAttrs (parseAttributes attrStr) }
    | none =>
    match scanFor tryHeadingAt t with
    | some (d, content) => some { tag := String.mk ['h', d], content := content }
    | none =>
    match scanFor tryCodeAt t with
    | some (cls, content) =>
      let language0 : Str :=
        match cls with
        | some v => if v = [] then str "plain text" else v
        | none => str "plain text"
      some { tag := "pre", content := content,
             attributes := .lang (normalizeLanguage (cleanLanguage language0)) }
    | none =>
    match scanFor (tryTagAt (str "<blockquote>") (str "</blockquote>")) t with
    | some content => some { tag := "blockquote", content := content }
    | none =>
    match scanFor (tryTagAt (str "<li>") (str "</li>")) t with
    | some content => some { tag := "li", content := content }
    | none =>
    match scanFor (tryTagAt (str "<tr>") (str "</tr>")) t with
    | some row =>
      let cs := extractCells row
      if cs = [] then none
      else some { tag := "table-row", content := [], attributes := .cells cs }
    | none =>
    if hasTableStructTag t then none
    else
    match scanFor (tryTagAt (str "<p>") (str "</p>")) t with
    | some content => if trimChars content = [] then none else some { tag := "p", content := content }
    | none =>
    if t.head? ≠ some '<' ∧ t.getLast? ≠ some '>' then some { tag := "p", content := t }
    else none

/-- `html.split('\n')` (JavaScript array-of-strings split). -/
def splitNewlines : Str → List Str
  | [] => [[]]
  | '\n' :: rest => [] :: splitNewlines rest
  | c :: rest =>
    match splitNewlines rest with
    | l :: ls => (c :: l) :: ls
    | [] => [[c]]

/-- `parseHtmlElements` of the source: the code-block pre-pass, then the
line split with blank lines discarded, then the per-line classification. -/
def parseHtmlElements (html : Str) : List ScannedElement :=
  let h := preprocessCodeBlocks html
  ((splitNewlines h).filter (fun l => trimChars l ≠ [])).filterMap classifyLine

/-! ## Remote blocks and the block builder (elementToNotionBlock, lines 579-729) -/

/-- The closed union of remote block shapes built by this service. -/
inductive NotionBlock where
  | paragraph (richText : List RichTextItem) : NotionBlock
  | heading1 (richText : List RichTextItem) : NotionBlock
  | heading2 (richText : List RichTextItem) : NotionBlock
  | heading3 (richText : List RichTextItem) : NotionBlock
  | code (richText : List RichTextItem) (language : Str) : NotionBlock
  | quote (richText : List RichTextItem) : NotionBlock
  | bulletedListItem (richText : List RichTextItem) : NotionBlock
  | image (url : Str) (caption : List RichTextItem) : NotionBlock
  | callout (richText : List RichTextItem) (iconEmoji : Str) (color : Str) : NotionBlock
  | divider : NotionBlock
deriving DecidableEq

/-- Whether a block is an image block (`block.type === 'image'`). -/
def isImageBlock : NotionBlock → Bool
  | .image _ _ => true
  | _ => false

/-- Whether a block is a callout block. -/
def isCalloutBlock : NotionBlock → Bool
  | .callout _ _ _ => true
  | _ => false

/-- The `src` attribute of an `img` element, when the element carries
parsed image attributes containing one.  The source tests JavaScript
truthiness (`element.attributes && element.attributes.src`), so an empty
`src` value counts as absent. -/
def imgSrc (e : ScannedElement) : Option Str :=
  match e.attributes with
  | .imgAttrs attrs =>
    match getAttr attrs (str "src") with
    | some src => if src = [] then none else some src
    | none => none
  | _ => none

/-- `elementToNotionBlock` of the source.  The image reachability check
`verifyImageUrl` is a network probe and enters as the oracle `verify`;
the builder itself never fails, degrading an unreachable image to a
callout block and yielding no block for discardable input. -/
def elementToNotionBlock (verify : Str → Bool) (e : ScannedElement) : Option NotionBlock :=
  if e.tag = "h1" then some (.heading1 (htmlToRichText e.content))
  else if e.tag = "h2" then some (.heading2 (htmlToRichText e.content))
  else if e.tag = "h3" then some (.heading3 (htmlToRichText e.content))
  else if e.tag = "p" then
    if trimChars e.content = [] then none
    else some (.paragraph (htmlToRichText e.content))
  else if e.tag = "pre" then
    let codeContent := restoreCodeNewlines e.content
    let language : Str :=
      match e.attributes with
      | .lang l => if l = [] then str "plain text" else l
      | _ => str "plain text"
    some (.code [{ content := codeContent }] language)
  else if e.tag = "blockquote" then some (.quote (htmlToRichText e.content))
  else if e.tag = "li" then some (.bulletedListItem (htmlToRichText e.content))
  else if e.tag = "table-row" then
    match e.attributes with
    | .cells cs =>
      let cellsText := (cs.intersperse (str " | ")).flatten
      some (.paragraph [{ content := str "| " ++ cellsText ++ str " |",
                          annotations := { code := true } }])
    | _ => none
  else if e.tag = "img" then
    match imgSrc e with
    | some src =>
      if verify src then
        let caption : List RichTextItem :=
          match e.attributes with
          | .imgAttrs attrs =>
            match getAttr attrs (str "alt") with
            | some alt => if alt = [] then [] else [{ content := alt }]
            | none => []
          | _ => []
        some (.image src caption)
      else
        let alt : Str :=
          match e.attributes with
          | .imgAttrs attrs =>
            match getAttr attrs (str "alt") with
            | some a => if a = [] then str "图片" else a
            | none => str "图片"
          | _ => str "图片"
        some (.callout
          [{ content := str "图片无法显示: " ++ alt ++ str "\n链接: " ++ src ++
                        str "\n原因: 图片链接无法访问或有访问限制" }]
          (str "📷") (str "yellow_background"))
    | none => none
  else none

/-- `htmlToNotionBlocks` of the source: scan the HTML then build one block
per element, discarding elements that yield none. -/
def htmlToNotionBlocks (verify : Str → Bool) (html : Str) : List NotionBlock :=
  (parseHtmlElements html).filterMap (elementToNotionBlock verify)

/-! ## Title extraction (extractTitleFromContent, lines 753-773) -/

/-- One attempt of the heading title regex `^#{n}\s+(.+)$` (multiline flag)
at a line start.  The `\s` class also matches newlines, so the greedy
`\s+` run may span lines; the capture `(.+)` is the rest of the line it
backtracks to, which must hold at least one non-newline character. -/
def matchHeadingAt (n : Nat) (s : Str) : Option Str :=
  if (List.replicate n '#').isPrefixOf s then
    let afterHash := s.drop n
    let w := afterHash.takeWhile isSpaceChar
    if w = [] then none
    else
      match afterHash.drop w.length with
      | c :: restAfter => some ((c :: restAfter).takeWhile (fun x => x ≠ '\n'))
      | [] =>
        let ks := (List.range w.length).filter
          (fun k => 1 ≤ k ∧ w.get? k ≠ some '\n')
        match ks.getLast? with
        | some k => some ((w.drop k).takeWhile (fun x => x ≠ '\n'))
        | none => none
  else none

/-- The multiline search: the `^` anchor restricts match attempts to line
starts, tried left to right. -/
def scanHeading (n : Nat) (atStart : Bool) : Str → Option Str
  | [] => none
  | c :: rest =>
    if atStart then
      match matchHeadingAt n (c :: rest) with
      | some cap => some cap
      | none => scanHeading n (c == '\n') rest
    else scanHeading n (c == '\n') rest

/-- `firstLine.replace(/^#+\s*/, '')`: strip one maximal leading run of at
least one `#` together with any whitespace following it; with no leading
`#` the replace does not fire. -/
def stripLeadingHashes (l : Str) : Str :=
  let hs := l.takeWhile (fun c => c = '#')
  if hs = [] then l else (l.drop hs.length).dropWhile isSpaceChar

/-- `extractTitleFromContent` of the source: first `# ...` match, else
first `## ...` match, else the first line of the content (the literal
line at index 0 of the split) stripped of leading hashes and trimmed when
it is non-empty, else the fixed placeholder. -/
def extractTitleFromContent (content : Str) : Str :=
  match scanHeading 1 true content with
  | some cap => trimChars cap
  | none =>
    match scanHeading 2 true content with
    | some cap => trimChars cap
    | none =>
      let firstLine := content.takeWhile (fun c => c ≠ '\n')
      if firstLine ≠ [] then trimChars (stripLeadingHashes firstLine)
      else str "未命名文档"

/-! ## Errors, results, and the pipeline orchestrator (markdownToNotion,
lines 45-170) -/

/-- Modelled from the spec: the error-construction helper `createError` of
`src/middleware/errorHandler.ts`, whose source is not included under
`src/`.  Per the spec's error taxonomy it produces an error value carrying
a human-readable message and a numeric status class (400-class for caller
input errors, 500-class for other failures). -/
structure AppError where
  message : Str
  statusCode : Nat
deriving DecidableEq

/-- Modelled from the spec: `createError(message, statusCode)`. -/
def createError (message : Str) (statusCode : Nat) : AppError :=
  ⟨message, statusCode⟩

/-- The conversion result record returned on success. -/
structure ConversionResult where
  success : Bool
  notionPageId : Option Str
  title : Str
  timestamp : Str
  blocksCreated : Nat
  imagesProcessed : Nat
  batches : Nat
deriving DecidableEq

/-- A network side effect of one pipeline run, for stating that no network
call is attempted in a given scenario: an image reachability probe, the
page creation, or one batch append. -/
inductive NetCall where
  | probe (url : Str) : NetCall
  | createPage (parentId : Str) (title : Str) : NetCall
  | append (pageId : Str) (count : Nat) : NetCall
deriving DecidableEq

/-- The external collaborators of the pipeline (spec section 6): the
Markdown-to-HTML converter (the showdown library together with the local
cleanup/fallback wrappers), the image reachability probe, and the remote
page API.  All are oracles supplied per invocation. -/
structure NetOps where
  mdToHtml : Str → Str
  verifyImage : Str → Bool
  createPage : Str → Str → Except AppError Str
  appendChildren : Str → List NotionBlock → Except AppError Unit

/-- The synthetic timestamp paragraph prepended by the orchestrator
(italic gray run holding the locale-formatted creation time). -/
def timestampBlock (nowLocale : Str) : NotionBlock :=
  .paragraph [{ content := str "创建时间: " ++ nowLocale,
                annotations := { italic := true, color := some (str "gray") } }]

/-- The synthetic divider prepended after the timestamp paragraph. -/
def dividerBlock : NotionBlock := .divider

/-- The batching loop `for (let i = 0; i < allBlocks.length; i += 100)`:
the list of submitted chunks (`allBlocks.slice(i, i + 100)`) in
submission order, paired with the number of inter-batch delays executed
(`if (i + 100 < allBlocks.length) await delay`).  Fueled on the number of
remaining blocks; each iteration consumes at least one block. -/
def batchLoop : Nat → List NotionBlock → List (List NotionBlock) × Nat
  | 0, _ => ([], 0)
  | _ + 1, [] => ([], 0)
  | fuel + 1, b :: rest =>
    let l := b :: rest
    let remaining := l.drop 100
    let p := batchLoop fuel remaining
    (l.take 100 :: p.1, (if remaining.isEmpty then 0 else 1) + p.2)

/-- The batching loop at its call site, with adequate fuel. -/
def batchLoopOf (allBlocks : List NotionBlock) : List (List NotionBlock) × Nat :=
  batchLoop (allBlocks.length + 1) allBlocks

/-- Sequential submission of the chunks: each chunk is appended to the new
page in order, a failure aborting the loop; returns the number of blocks
created and the append calls performed. -/
def submitBatches (ops : NetOps) (pageId : Str) :
    List (List NotionBlock) → Except AppError Nat × List NetCall
  | [] => (.ok 0, [])
  | b :: bs =>
    match ops.appendChildren pageId b with
    | .error e => (.error e, [.append pageId b.length])
    | .ok _ =>
      match submitBatches ops pageId bs with
      | (.ok n, tr) => (.ok (b.length + n), .append pageId b.length :: tr)
      | (.error e, tr) => (.error e, .append pageId b.length :: tr)

/-- The reachability probes issued while the element list is walked: one
per `img` element carrying a `src` attribute, in scan order. -/
def probeCalls (elements : List ScannedElement) : List NetCall :=
  elements.filterMap (fun e =>
    if e.tag = "img" then (imgSrc e).map NetCall.probe else none)

/-- `markdownToNotion` of the source, with the network effects threaded
explicitly: the try-block validates the two required fields (throwing a
400-class error before any network call), converts, scans, builds,
resolves the title, creates the page, prepends the two synthetic blocks
and submits the chunks; the catch-all wraps every thrown error in a fresh
500-class error with the prefixed message.  `nowIso` is the ISO timestamp
taken at entry and `nowLocale` the locale rendering used in the timestamp
paragraph.  Returns the outcome together with the network calls made. -/
def markdownToNotion (ops : NetOps) (content apiKey parentPageId : Str)
    (title : Option Str) (nowIso nowLocale : Str) :
    Except AppError ConversionResult × List NetCall :=
  let inner : Except AppError ConversionResult × List NetCall :=
    if apiKey = [] then (.error (createError (str "缺少notion_api_key参数") 400), [])
    else if parentPageId = [] then
      (.error (createError (str "缺少notion_page_id参数") 400), [])
    else
      let html := ops.mdToHtml content
      let elements := parseHtmlElements html
      let blocks := elements.filterMap (elementToNotionBlock ops.verifyImage)
      let probes := probeCalls elements
      let pageTitle :=
        match title with
        | some t => if t = [] then extractTitleFromContent content else t
        | none => extractTitleFromContent content
      match ops.createPage parentPageId pageTitle with
      | .error e => (.error e, probes ++ [.createPage parentPageId pageTitle])
      | .ok pageId =>
        let allBlocks := timestampBlock nowLocale :: dividerBlock :: blocks
        match submitBatches ops pageId (batchLoopOf allBlocks).1 with
        | (.error e, tr) => (.error e, probes ++ [.createPage parentPageId pageTitle] ++ tr)
        | (.ok n, tr) =>
          (.ok { success := true, notionPageId := some pageId, title := pageTitle,
                 timestamp := nowIso, blocksCreated := n,
                 imagesProcessed := (blocks.filter isImageBlock).length,
                 batches := (allBlocks.length + 99) / 100 },
           probes ++ [.createPage parentPageId pageTitle] ++ tr)
  match inner with
  | (.error e, tr) =>
    (.error (createError (str "创建子页面失败: " ++ e.message) 500), tr)
  | ok => ok

/-- The error of an outcome, if it is one (projection used to state
error-path facts without deciding equality of whole outcomes). -/
def resultError : Except AppError ConversionResult × List NetCall → Option AppError
  | (.error e, _) => some e
  | _ => none

/-- The `imagesProcessed` count of a successful outcome. -/
def resultImages : Except AppError ConversionResult × List NetCall → Option Nat
  | (.ok r, _) => some r.imagesProcessed
  | _ => none

/-- A trivial oracle set for concrete runs: identity Markdown conversion,
every probe succeeds, page creation yields a fixed id, appends succeed. -/
def testOps : NetOps where
  mdToHtml := id
  verifyImage := fun _ => true
  createPage := fun _ _ => .ok (str "pid")
  appendChildren := fun _ _ => .ok ()

/-- Oracles for the three-image scenario: identical to `testOps` except
that the probe fails exactly on the second image URL. -/
def testOpsOneBadImage : NetOps where
  mdToHtml := id
  verifyImage := fun u => u ≠ str "http://b/2.png"
  createPage := fun _ _ => .ok (str "pid")
  appendChildren := fun _ _ => .ok ()

/-- The three-image HTML of the `imagesProcessed` scenario. -/
def threeImagesHtml : Str :=
  str "<img src=\"http://a/1.png\" />\n<img src=\"http://b/2.png\" alt=\"two\" />\n<img src=\"http://c/3.png\" />"

/-- Characterization of the elements the builder turns into image blocks:
an `img`-tagged element whose parsed attributes contain a `src` accepted
by the reachability oracle. -/
def countsAsImage (verify : Str → Bool) (e : ScannedElement) : Bool :=
  if e.tag = "img" then
    match imgSrc e with
    | some src => verify src
    | none => false
  else false

/-! ## Helper lemmas -/

set_option maxRecDepth 100000

/-- Unfolding of the escape on a cons cell. -/
theorem escapeCodeNewlines_cons (c : Char) (s : Str) :
    escapeCodeNewlines (c :: s) =
      (if c = '\n' then ['\\', 'n'] else [c]) ++ escapeCodeNewlines s := by
  simp [escapeCodeNewlines]

/-- The escape of a non-empty string is non-empty. -/
theorem escapeCodeNewlines_ne_nil (c : Char) (s : Str) :
    escapeCodeNewlines (c :: s) ≠ [] := by
  rw [escapeCodeNewlines_cons]
  by_cases h : c = '\n' <;> simp [h]

/-- The restore consumes a leading backslash-n pair as one newline. -/
theorem restoreCodeNewlines_bn (s : Str) :
    restoreCodeNewlines ('\\' :: 'n' :: s) = '\n' :: restoreCodeNewlines s := by
  cases s <;> simp [restoreCodeNewlines]

/-- The restore passes a head character through when no backslash-n pair
starts there. -/
theorem restoreCodeNewlines_cons_ne (c d : Char) (s : Str)
    (h : ¬(c = '\\' ∧ d = 'n')) :
    restoreCodeNewlines (c :: d :: s) = c :: restoreCodeNewlines (d :: s) := by
  simp [restoreCodeNewlines, h]

/-- Absence of a backslash-n pair passes to the tail. -/
theorem hasBackslashN_tail (c : Char) (s : Str)
    (h : hasBackslashN (c :: s) = false) : hasBackslashN s = false := by
  cases s with
  | nil => rfl
  | cons d t => simp [hasBackslashN] at h; simp [h.2]

/-- Unfolding of the backslash-n detector on two cons cells. -/
theorem hasBackslashN_cons_cons (c d : Char) (s : Str) :
    hasBackslashN (c :: d :: s) = false ↔
      ¬(c = '\\' ∧ d = 'n') ∧ hasBackslashN (d :: s) = false := by
  simp [hasBackslashN]

/-- Round trip of the code-block newline escape for strings free of a
literal backslash-n pair. -/
theorem restore_escape_roundtrip (s : Str) (h : hasBackslashN s = false) :
    restoreCodeNewlines (escapeCodeNewlines s) = s := by
  induction s with
  | nil => simp [escapeCodeNewlines, restoreCodeNewlines]
  | cons c rest ih =>
    have htail := hasBackslashN_tail c rest h
    by_cases hc : c = '\n'
    · subst hc
      have e1 : escapeCodeNewlines ('\n' :: rest) = '\\' :: 'n' :: escapeCodeNewlines rest := by
        rw [escapeCodeNewlines_cons]; simp
      rw [e1, restoreCodeNewlines_bn, ih htail]
    · have e2 : escapeCodeNewlines (c :: rest) = c :: escapeCodeNewlines rest := by
        rw [escapeCodeNewlines_cons]; simp [hc]
      rw [e2]
      cases rest with
      | nil => simp [escapeCodeNewlines, restoreCodeNewlines]
      | cons r rt =>
        by_cases hr : r = '\n'
        · subst hr
          have e3 : escapeCodeNewlines ('\n' :: rt) = '\\' :: 'n' :: escapeCodeNewlines rt := by
            rw [escapeCodeNewlines_cons]; simp
          rw [e3, restoreCodeNewlines_cons_ne c '\\' _ (by simp), ← e3, ih htail]
        · have hne : ¬(c = '\\' ∧ r = 'n') := by
            by_cases hcb : c = '\\'
            · subst hcb
              exact ((hasBackslashN_cons_cons '\\' r rt).mp h).1
            · exact fun hp => hcb hp.1
          have e4 : escapeCodeNewlines (r :: rt) = r :: escapeCodeNewlines rt := by
            rw [escapeCodeNewlines_cons]; simp [hr]
          rw [e4, restoreCodeNewlines_cons_ne c r _ hne, ← e4, ih htail]

/-- The batching loop does nothing on an empty block list. -/
theorem batchLoop_nil (fuel : Nat) : batchLoop fuel [] = ([], 0) := by
  cases fuel <;> rfl

/-- Step equation of the batching loop on a non-empty block list. -/
theorem batchLoop_cons (fuel : Nat) (b : NotionBlock) (rest : List NotionBlock) :
    batchLoop (fuel + 1) (b :: rest) =
      ((b :: rest).take 100 :: (batchLoop fuel ((b :: rest).drop 100)).1,
       (if ((b :: rest).drop 100).isEmpty then 0 else 1) +
         (batchLoop fuel ((b :: rest).drop 100)).2) := by
  simp [batchLoop]

/-- Concatenating the submitted chunks in order restores the prefixed
block sequence. -/
theorem batchLoop_flatten (fuel : Nat) :
    ∀ l : List NotionBlock, l.length ≤ fuel → ((batchLoop fuel l).1).flatten = l := by
  induction fuel with
  | zero =>
    intro l hl
    have : l = [] := List.length_eq_zero.mp (Nat.le_zero.mp hl)
    subst this; rfl
  | succ fuel ih =>
    intro l hl
    cases l with
    | nil => rfl
    | cons b rest =>
      rw [batchLoop_cons]
      have hdrop : ((b :: rest).drop 100).length ≤ fuel := by
        rw [List.length_drop]
        omega
      simp only [List.flatten_cons, ih _ hdrop, List.take_append_drop]

/-- Every submitted chunk is non-empty and holds at most 100 blocks. -/
theorem batchLoop_chunk_bounds (fuel : Nat) :
    ∀ l : List NotionBlock, l.length ≤ fuel →
      ∀ b ∈ (batchLoop fuel l).1, b ≠ [] ∧ b.length ≤ 100 := by
  induction fuel with
  | zero =>
    intro l hl b hb
    have : l = [] := List.length_eq_zero.mp (Nat.le_zero.mp hl)
    subst this; simp [batchLoop] at hb
  | succ fuel ih =>
    intro l hl b hb
    cases l with
    | nil => simp [batchLoop] at hb
    | cons x rest =>
      rw [batchLoop_cons] at hb
      simp only [List.mem_cons] at hb
      rcases hb with hb | hb
      · subst hb
        constructor
        · simp
        · simp [List.length_take]
      · exact ih _ (by rw [List.length_drop]; omega) b hb

/-- The chunk list of a non-empty block list is non-empty. -/
theorem batchLoop_ne_nil (fuel : Nat) (b : NotionBlock) (rest : List NotionBlock)
    (_hl : (b :: rest).length ≤ fuel + 1) :
    (batchLoop (fuel + 1) (b :: rest)).1 ≠ [] := by
  rw [batchLoop_cons]; simp

/-- The number of inter-batch delays is one less than the number of
chunks (zero for an empty block list). -/
theorem batchLoop_delays (fuel : Nat) :
    ∀ l : List NotionBlock, l.length ≤ fuel →
      (batchLoop fuel l).2 = (batchLoop fuel l).1.length - 1 := by
  induction fuel with
  | zero =>
    intro l hl
    have : l = [] := List.length_eq_zero.mp (Nat.le_zero.mp hl)
    subst this; rfl
  | succ fuel ih =>
    intro l hl
    cases l with
    | nil => rfl
    | cons b rest =>
      rw [batchLoop_cons]
      have hdrop : ((b :: rest).drop 100).length ≤ fuel := by
        rw [List.length_drop]; omega
      by_cases hrem : ((b :: rest).drop 100).isEmpty
      · have : (b :: rest).drop 100 = [] := by
          cases h : (b :: rest).drop 100 <;> simp [h] at hrem ⊢
        simp only [this, hrem, if_pos]
        simp [batchLoop_nil]
      · have hne : (b :: rest).drop 100 ≠ [] := by
          cases h : (b :: rest).drop 100 <;> simp [h] at hrem ⊢
        obtain ⟨y, ys, hys⟩ := List.exists_cons_of_ne_nil hne
        have hbatchne : (batchLoop fuel ((b :: rest).drop 100)).1 ≠ [] := by
          rw [hys]
          cases fuel with
          | zero =>
            exfalso
            rw [hys] at hdrop
            simp at hdrop
          | succ f => exact batchLoop_ne_nil f y ys (by rw [← hys]; exact hdrop)
        rw [ih _ hdrop]
        simp only [if_neg hrem, List.length_cons]
        have : 1 ≤ (batchLoop fuel ((b :: rest).drop 100)).1.length :=
          Nat.one_le_iff_ne_zero.mpr (by simpa [List.length_eq_zero] using hbatchne)
        omega

/-- Concrete shape of the batching on 252 blocks: three chunks of sizes
100, 100, 52 and two inter-batch delays. -/
theorem batchLoopOf_252 (l : List NotionBlock) (hl : l.length = 252) :
    (batchLoopOf l).1.map List.length = [100, 100, 52] ∧ (batchLoopOf l).2 = 2 := by
  obtain ⟨b, rest, rfl⟩ :=
    List.exists_cons_of_ne_nil (l := l) (fun h => by rw [h] at hl; simp at hl)
  have hfuel : (b :: rest).length + 1 = 253 := by rw [hl]
  unfold batchLoopOf
  rw [hfuel, show (253 : Nat) = 252 + 1 from rfl, batchLoop_cons 252 b rest]
  have hd1 : ((b :: rest).drop 100).length = 152 := by rw [List.length_drop, hl]
  obtain ⟨c1, t1, hc1⟩ :=
    List.exists_cons_of_ne_nil (l := (b :: rest).drop 100)
      (fun h => by rw [h] at hd1; simp at hd1)
  rw [hc1, show (252 : Nat) = 251 + 1 from rfl, batchLoop_cons 251 c1 t1]
  have l1 : (c1 :: t1).length = 152 := by rw [← hc1, hd1]
  have hd2 : ((c1 :: t1).drop 100).length = 52 := by rw [List.length_drop, l1]
  obtain ⟨c2, t2, hc2⟩ :=
    List.exists_cons_of_ne_nil (l := (c1 :: t1).drop 100)
      (fun h => by rw [h] at hd2; simp at hd2)
  rw [hc2, show (251 : Nat) = 250 + 1 from rfl, batchLoop_cons 250 c2 t2]
  have l2 : (c2 :: t2).length = 52 := by rw [← hc2, hd2]
  have hd3 : (c2 :: t2).drop 100 = [] := List.drop_eq_nil_of_le (by omega)
  rw [hd3, batchLoop_nil]
  constructor
  · simp only [List.map_cons, List.map_nil, List.length_take]
    simp at hl l1 l2
    simp [hl, l1, l2]
  · simp

/-- Runs produced by the plain-text flush carry no annotations. -/
theorem flushRun_plain (cur : Str) (r : RichTextItem) (h : r ∈ flushRun cur) :
    r.annotations = {} := by
  unfold flushRun at h
  split at h
  · simp at h
  · simp at h; rw [h]

/-- Every styled run the tokenizer loop emits (on top of styled runs
already accumulated) has content of the form `stripHtmlTags t`. -/
theorem rtLoop_styled (fuel : Nat) :
    ∀ (s cur : Str) (acc : List RichTextItem),
      (∀ r ∈ acc, r.annotations ≠ {} → ∃ t, r.content = stripHtmlTags t) →
      ∀ r ∈ rtLoop fuel s cur acc,
        r.annotations ≠ {} → ∃ t, r.content = stripHtmlTags t := by
  have flushCase : ∀ (cur : Str) (acc : List RichTextItem),
      (∀ r ∈ acc, r.annotations ≠ {} → ∃ t, r.content = stripHtmlTags t) →
      ∀ r ∈ acc ++ flushRun cur,
        r.annotations ≠ {} → ∃ t, r.content = stripHtmlTags t := by
    intro cur acc hacc r hr hann
    rcases List.mem_append.mp hr with h | h
    · exact hacc r h hann
    · exact absurd (flushRun_plain cur r h) hann
  have styledCase : ∀ (cur t : Str) (a : RTAnnotations) (acc : List RichTextItem),
      (∀ r ∈ acc, r.annotations ≠ {} → ∃ t, r.content = stripHtmlTags t) →
      ∀ r ∈ (acc ++ flushRun cur) ++
          [{ content := stripHtmlTags t, annotations := a : RichTextItem }],
        r.annotations ≠ {} → ∃ t, r.content = stripHtmlTags t := by
    intro cur t a acc hacc r hr hann
    rcases List.mem_append.mp hr with h | h
    · exact flushCase cur acc hacc r h hann
    · simp at h
      exact ⟨t, by rw [h]⟩
  induction fuel with
  | zero => intro s cur acc hacc; exact fun r hr => flushCase cur acc hacc r hr
  | succ fuel ih =>
    intro s cur acc hacc
    cases s with
    | nil => exact fun r hr => flushCase cur acc hacc r hr
    | cons c rest =>
      show ∀ r ∈ rtLoop (fuel + 1) (c :: rest) cur acc, _
      rw [rtLoop]
      by_cases hc : c = '<'
      · rw [if_pos hc]
        cases hfind : findChar '>' rest with
        | none =>
          simp only
          exact fun r hr => flushCase cur acc hacc r hr
        | some j =>
          simp only
          by_cases h1 : (str "<strong>").isPrefixOf ('<' :: rest.take (j + 1))
          · rw [if_pos h1]
            cases hsub : findSubIdx (str "</strong>") (rest.drop (j + 1)) with
            | some k => exact ih _ _ _ (styledCase cur _ _ acc hacc)
            | none => exact ih _ _ _ (flushCase cur acc hacc)
          · rw [if_neg h1]
            by_cases h2 : (str "<em>").isPrefixOf ('<' :: rest.take (j + 1))
            · rw [if_pos h2]
              cases hsub : findSubIdx (str "</em>") (rest.drop (j + 1)) with
              | some k => exact ih _ _ _ (styledCase cur _ _ acc hacc)
              | none => exact ih _ _ _ (flushCase cur acc hacc)
            · rw [if_neg h2]
              by_cases h3 : (str "<code>").isPrefixOf ('<' :: rest.take (j + 1))
              · rw [if_pos h3]
                cases hsub : findSubIdx (str "</code>") (rest.drop (j + 1)) with
                | some k => exact ih _ _ _ (styledCase cur _ _ acc hacc)
                | none => exact ih _ _ _ (flushCase cur acc hacc)
              · rw [if_neg h3]
                by_cases h4 : (str "<del>").isPrefixOf ('<' :: rest.take (j + 1)) ∨
                    (str "<s>").isPrefixOf ('<' :: rest.take (j + 1))
                · rw [if_pos h4]
                  cases hsub : findSubIdx (str "</del>") (rest.drop (j + 1)) with
                  | some k => exact ih _ _ _ (styledCase cur _ _ acc hacc)
                  | none =>
                    cases hsub2 : findSubIdx (str "</s>") (rest.drop (j + 1)) with
                    | some k => exact ih _ _ _ (styledCase cur _ _ acc hacc)
                    | none => exact ih _ _ _ (flushCase cur acc hacc)
                · rw [if_neg h4]
                  exact ih _ _ _ (flushCase cur acc hacc)
      · rw [if_neg hc]
        exact ih _ _ _ hacc

/-- The tokenizer always returns at least one run. -/
theorem htmlToRichText_ne_nil (html : Str) : htmlToRichText html ≠ [] := by
  unfold htmlToRichText
  by_cases h : rtLoop (html.length + 1) html [] [] = [] <;> simp [h]

/-- Every styled run of the tokenizer output has content of the form
`stripHtmlTags t`. -/
theorem htmlToRichText_styled (html : Str) (r : RichTextItem)
    (hr : r ∈ htmlToRichText html) (hann : r.annotations ≠ {}) :
    ∃ t, r.content = stripHtmlTags t := by
  unfold htmlToRichText at hr
  by_cases h : rtLoop (html.length + 1) html [] [] = []
  · rw [if_pos h] at hr
    simp at hr
    rw [hr] at hann
    simp at hann
  · rw [if_neg h] at hr
    exact rtLoop_styled (html.length + 1) html [] [] (by simp) r hr hann

/-- The block built from an element is an image block exactly when the
element is an `img` element whose `src` passed verification. -/
theorem elementToNotionBlock_image_char (verify : Str → Bool) (e : ScannedElement) :
    (elementToNotionBlock verify e).elim false isImageBlock = countsAsImage verify e := by
  unfold elementToNotionBlock countsAsImage
  by_cases h1 : e.tag = "h1"
  · rw [if_pos h1, if_neg (show ¬e.tag = "img" by rw [h1]; decide)]
    rfl
  · rw [if_neg h1]
    by_cases h2 : e.tag = "h2"
    · rw [if_pos h2, if_neg (show ¬e.tag = "img" by rw [h2]; decide)]
      rfl
    · rw [if_neg h2]
      by_cases h3 : e.tag = "h3"
      · rw [if_pos h3, if_neg (show ¬e.tag = "img" by rw [h3]; decide)]
        rfl
      · rw [if_neg h3]
        by_cases h4 : e.tag = "p"
        · rw [if_pos h4, if_neg (show ¬e.tag = "img" by rw [h4]; decide)]
          by_cases htrim : trimChars e.content = []
          · rw [if_pos htrim]
            rfl
          · rw [if_neg htrim]
            rfl
        · rw [if_neg h4]
          by_cases h5 : e.tag = "pre"
          · rw [if_pos h5, if_neg (show ¬e.tag = "img" by rw [h5]; decide)]
            rfl
          · rw [if_neg h5]
            by_cases h6 : e.tag = "blockquote"
            · rw [if_pos h6, if_neg (show ¬e.tag = "img" by rw [h6]; decide)]
              rfl
            · rw [if_neg h6]
              by_cases h7 : e.tag = "li"
              · rw [if_pos h7, if_neg (show ¬e.tag = "img" by rw [h7]; decide)]
                rfl
              · rw [if_neg h7]
                by_cases h8 : e.tag = "table-row"
                · rw [if_pos h8, if_neg (show ¬e.tag = "img" by rw [h8]; decide)]
                  cases e.attributes <;> rfl
                · rw [if_neg h8]
                  by_cases h9 : e.tag = "img"
                  · rw [if_pos h9, if_pos h9]
                    cases hsrc : imgSrc e with
                    | none =>
                      simp only [hsrc]
                      rfl
                    | some src =>
                      simp only [hsrc]
                      cases hv : verify src
                      · rw [if_neg (by simp [hv])]
                        rfl
                      · rw [if_pos (by simp [hv])]
                        rfl
                  · rw [if_neg h9, if_neg h9]
                    rfl

/-- The number of image blocks among the built blocks equals the number of
`img` elements whose `src` passed verification. -/
theorem imagesProcessed_char (verify : Str → Bool) (elements : List ScannedElement) :
    ((elements.filterMap (elementToNotionBlock verify)).filter isImageBlock).length =
      (elements.filter (countsAsImage verify)).length := by
  induction elements with
  | nil => rfl
  | cons e es ih =>
    have hchar := elementToNotionBlock_image_char verify e
    rw [List.filterMap_cons, List.filter_cons]
    cases hb : elementToNotionBlock verify e with
    | none =>
      rw [hb] at hchar
      simp only [Option.elim] at hchar
      rw [← hchar]
      simpa using ih
    | some b =>
      rw [hb] at hchar
      simp only [Option.elim] at hchar
      rw [← hchar, List.filter_cons]
      cases hib : isImageBlock b <;> simp [ih]

/-! ## Claim theorems -/

/-- C7: the Inline Tokenizer applied to `plain <strong>bold</strong> text`
returns exactly three runs in order: unstyled `plain `, bold `bold`,
unstyled ` text`. -/
theorem c7_inline_tokenizer :
    htmlToRichText (str "plain <strong>bold</strong> text") =
      [{ content := str "plain " },
       { content := str "bold", annotations := { bold := true } },
       { content := str " text" }] := by
  rfl

/-- C9: for every input string the Inline Tokenizer returns a non-empty
run list (it is total by construction, so it cannot raise), and the empty
string yields a single run whose text is empty. -/
theorem c9_tokenizer_total :
    (∀ html : Str, htmlToRichText html ≠ []) ∧
    htmlToRichText [] = [{ content := [] }] :=
  ⟨htmlToRichText_ne_nil, by rfl⟩

/-- C5 counterexample: the escape/un-escape pair is not a round trip for
every multi-line interior; the interior backslash, `n`, newline, `x`
(which contains a newline, hence is multi-line) comes back altered, the
pre-existing literal backslash-n pair having collapsed into a newline. -/
theorem c5_counterexample :
    restoreCodeNewlines (escapeCodeNewlines (str "\\n\nx")) ≠ str "\\n\nx" := by
  decide

/-- C5 (amended): the pre-pass escape replaces each interior newline with
the two-character backslash-n sequence and the Block Builder reverses it;
this round trip restores every interior text that does not already
contain a literal backslash-n pair — in particular multi-line code with
an internal blank line such as `a`, blank, `b`.  (Interiors that do
contain a literal backslash-n pair are corrupted; see the
counterexample.)  The concrete conjuncts run the scenario end to end:
the multi-line code block survives the Scanner as one `pre` element whose
content is exactly the escape of the interior, and the Block Builder
returns a code block holding the original interior text. -/
theorem c5_code_roundtrip :
    (∀ s : Str, hasBackslashN s = false →
      restoreCodeNewlines (escapeCodeNewlines s) = s) ∧
    parseHtmlElements (str "<pre><code class=\"language-js\">a\n\nb</code></pre>") =
      [{ tag := "pre", content := escapeCodeNewlines (str "a\n\nb"),
         attributes := .lang (str "javascript") }] ∧
    elementToNotionBlock (fun _ => true)
        { tag := "pre", content := escapeCodeNewlines (str "a\n\nb"),
          attributes := .lang (str "javascript") } =
      some (.code [{ content := str "a\n\nb" }] (str "javascript")) :=
  ⟨restore_escape_roundtrip, by decide, by decide⟩

/-- C5 witness: the round trip at the concrete interior `a`, blank, `b`. -/
theorem c5_code_roundtrip_witness :
    hasBackslashN (str "a\n\nb") = false ∧
    restoreCodeNewlines (escapeCodeNewlines (str "a\n\nb")) = str "a\n\nb" :=
  ⟨by decide, c5_code_roundtrip.1 (str "a\n\nb") (by decide)⟩

/-- C6: the Language Normalizer is a pure function with
`normalize("JS")="javascript"`, `normalize("")="plain text"`,
`normalize("brainfuck")="plain text"`, `normalize("Rust")="rust"`; it
lower-cases and trims its input, maps every alias of the alias table,
passes members of the supported-language list through (the rules applying
in that order, so the alias `bash` maps to `shell` although it is also
listed), and falls back to the plain-text identifier otherwise. -/
theorem c6_normalize_language :
    normalizeLanguage (str "JS") = str "javascript" ∧
    normalizeLanguage (str "") = str "plain text" ∧
    normalizeLanguage (str "brainfuck") = str "plain text" ∧
    normalizeLanguage (str "Rust") = str "rust" ∧
    normalizeLanguage (str " Rust ") = str "rust" ∧
    (∀ p ∈ languageMap, normalizeLanguage p.1 = p.2) ∧
    (∀ s ∈ supportedLanguages, languageMapLookup s = none → normalizeLanguage s = s) ∧
    (∀ s : Str, languageMapLookup (trimChars (s.map Char.toLower)) = none →
      trimChars (s.map Char.toLower) ∉ supportedLanguages →
      normalizeLanguage s = str "plain text") := by
  refine ⟨by decide, by decide, by decide, by decide, by decide, by decide, by decide, ?_⟩
  intro s h1 h2
  unfold normalizeLanguage
  by_cases h0 : s = [] ∨ s = str "plain text"
  · rw [if_pos h0]
  · rw [if_neg h0]
    simp only [h1, if_neg h2]

/-- C6 witness: the alias, passthrough and fallback clauses instantiated
at js, rust and brainfuck respectively. -/
theorem c6_normalize_language_witness :
    ((str "js", str "javascript") ∈ languageMap ∧
      normalizeLanguage (str "js") = str "javascript") ∧
    (str "rust" ∈ supportedLanguages ∧ languageMapLookup (str "rust") = none ∧
      normalizeLanguage (str "rust") = str "rust") ∧
    (languageMapLookup (trimChars ((str "brainfuck").map Char.toLower)) = none ∧
      trimChars ((str "brainfuck").map Char.toLower) ∉ supportedLanguages ∧
      normalizeLanguage (str "brainfuck") = str "plain text") :=
  ⟨⟨by decide,
    c6_normalize_language.2.2.2.2.2.1 (str "js", str "javascript") (by decide)⟩,
   ⟨by decide, by decide,
    c6_normalize_language.2.2.2.2.2.2.1 (str "rust") (by decide) (by decide)⟩,
   ⟨by decide, by decide,
     c6_normalize_language.2.2.2.2.2.2.2 (str "brainfuck") (by decide) (by decide)⟩⟩

/-- C10: every styled run the Inline Tokenizer emits has its text passed
through `stripHtmlTags` (there is some source fragment whose strip it is),
as does every table cell the Scanner extracts; concretely,
`<strong> bold </strong>` yields one bold run with the surrounding spaces
trimmed, an unstyled plain-text run keeps its whitespace verbatim, and
`stripHtmlTags` removes remaining tags, decodes the five entities and
trims. -/
theorem c10_strip_tags :
    (∀ (html : Str) (r : RichTextItem), r ∈ htmlToRichText html →
      r.annotations ≠ {} → ∃ t, r.content = stripHtmlTags t) ∧
    (∀ (row c : Str), c ∈ extractCells row → ∃ t, c = stripHtmlTags t) ∧
    htmlToRichText (str "<strong> bold </strong>") =
      [{ content := str "bold", annotations := { bold := true } }] ∧
    htmlToRichText (str " plain ") = [{ content := str " plain " }] ∧
    stripHtmlTags (str " <b>a</b> &lt;ok&gt; &amp; &quot; &#39; ") =
      str "a <ok> & \" '" := by
  refine ⟨htmlToRichText_styled, ?_, by rfl, by rfl, by decide⟩
  intro row c hc
  unfold extractCells at hc
  obtain ⟨t, _, rfl⟩ := List.mem_map.mp hc
  exact ⟨t, rfl⟩

/-- C10 witness: the bold run of `<strong> bold </strong>` and the cell of
`<th>A</th>`, with every hypothesis discharged concretely. -/
theorem c10_strip_tags_witness :
    (({ content := str "bold", annotations := { bold := true } } : RichTextItem) ∈
        htmlToRichText (str "<strong> bold </strong>") ∧
      ({ content := str "bold", annotations := { bold := true } } : RichTextItem).annotations ≠ {} ∧
      ∃ t, ({ content := str "bold",
              annotations := { bold := true } } : RichTextItem).content = stripHtmlTags t) ∧
    (str "A" ∈ extractCells (str "<th>A</th>") ∧ ∃ t, str "A" = stripHtmlTags t) :=
  ⟨⟨by decide, by decide,
    c10_strip_tags.1 (str "<strong> bold </strong>") _ (by decide) (by decide)⟩,
   ⟨by decide, c10_strip_tags.2.1 (str "<th>A</th>") (str "A") (by decide)⟩⟩

/-- C1 counterexample: a conversion whose scanner output contains three
`img` elements of which exactly one fails the reachability check reports
`imagesProcessed = 2`, not 3 — the count filters the built blocks by
image type, and the failed image became a callout block. -/
theorem c1_counterexample :
    ((parseHtmlElements threeImagesHtml).filter (fun e => e.tag = "img")).length = 3 ∧
    ((htmlToNotionBlocks testOpsOneBadImage.verifyImage threeImagesHtml).filter
        isCalloutBlock).length = 1 ∧
    resultImages (markdownToNotion testOpsOneBadImage threeImagesHtml (str "key")
        (str "parent") none (str "iso") (str "locale")) = some 2 ∧
    resultImages (markdownToNotion testOpsOneBadImage threeImagesHtml (str "key")
        (str "parent") none (str "iso") (str "locale")) ≠ some 3 :=
  ⟨by decide, by decide, by decide, by decide⟩

/-- C1 (amended): `imagesProcessed` counts exactly the image blocks built,
i.e. the `img`-tagged scanned elements whose `src` passed the
reachability check; an `img` element that fails the check is emitted as a
callout block and is not counted, so the three-image one-failure scenario
reports 2. -/
theorem c1_images_processed :
    (∀ (verify : Str → Bool) (elements : List ScannedElement),
      ((elements.filterMap (elementToNotionBlock verify)).filter isImageBlock).length =
        (elements.filter (countsAsImage verify)).length) ∧
    ((parseHtmlElements threeImagesHtml).filter
        (countsAsImage testOpsOneBadImage.verifyImage)).length = 2 ∧
    resultImages (markdownToNotion testOpsOneBadImage threeImagesHtml (str "key")
        (str "parent") none (str "iso") (str "locale")) = some 2 :=
  ⟨imagesProcessed_char, by decide, by decide⟩

/-- C3 counterexample: for the no-heading input whose first line is blank
(newline then `hello`), the resolved title is the fixed placeholder, not
the first non-empty line — the fallback reads the literal first line of
the split, which is empty here. -/
theorem c3_counterexample :
    scanHeading 1 true (str "\nhello") = none ∧
    scanHeading 2 true (str "\nhello") = none ∧
    extractTitleFromContent (str "\nhello") ≠ str "hello" ∧
    extractTitleFromContent (str "\nhello") = str "未命名文档" :=
  ⟨by decide, by decide, by decide, by decide⟩

/-- C3 (amended): the resolved title is, in order of preference, the
trimmed capture of the first `# ...` match, else of the first `## ...`
match, else — when both matchers fail — the literal first line of the
content (the line at index 0 of the newline split) with leading `#`
markers stripped and trimmed when that line is non-empty, else the fixed
placeholder.  When earlier lines are blank the first line is empty and
the placeholder is returned (the fallback does not skip to the first
non-empty line). -/
theorem c3_title_resolution :
    (∀ (content cap : Str), scanHeading 1 true content = some cap →
      extractTitleFromContent content = trimChars cap) ∧
    (∀ (content cap : Str), scanHeading 1 true content = none →
      scanHeading 2 true content = some cap →
      extractTitleFromContent content = trimChars cap) ∧
    (∀ content : Str, scanHeading 1 true content = none →
      scanHeading 2 true content = none →
      content.takeWhile (fun c => c ≠ '\n') ≠ [] →
      extractTitleFromContent content =
        trimChars (stripLeadingHashes (content.takeWhile (fun c => c ≠ '\n')))) ∧
    (∀ content : Str, scanHeading 1 true content = none →
      scanHeading 2 true content = none →
      content.takeWhile (fun c => c ≠ '\n') = [] →
      extractTitleFromContent content = str "未命名文档") ∧
    extractTitleFromContent (str "# Title\nbody") = str "Title" ∧
    extractTitleFromContent (str "hello world\nrest") = str "hello world" := by
  refine ⟨?_, ?_, ?_, ?_, by decide, by decide⟩
  · intro content cap h1
    unfold extractTitleFromContent
    rw [h1]
  · intro content cap h1 h2
    unfold extractTitleFromContent
    rw [h1, h2]
  · intro content h1 h2 hfl
    unfold extractTitleFromContent
    rw [h1, h2, if_pos hfl]
  · intro content h1 h2 hfl
    unfold extractTitleFromContent
    rw [h1, h2, if_neg (by rw [hfl]; exact fun h => h rfl)]

/-- C3 witness: the fallback clause at a no-heading input whose first line
is `hello`. -/
theorem c3_title_resolution_witness :
    scanHeading 1 true (str "hello\nworld") = none ∧
    scanHeading 2 true (str "hello\nworld") = none ∧
    (str "hello\nworld").takeWhile (fun c => c ≠ '\n') ≠ [] ∧
    extractTitleFromContent (str "hello\nworld") =
      trimChars (stripLeadingHashes ((str "hello\nworld").takeWhile (fun c => c ≠ '\n'))) :=
  ⟨by decide, by decide, by decide,
   c3_title_resolution.2.2.1 (str "hello\nworld") (by decide) (by decide) (by decide)⟩

/-- C4: for every built block list, the submitted sequence is exactly the
timestamp paragraph, then the divider, then the built blocks in scan
order — concatenating the chunks in submission order restores it; the
chunks are non-empty, hold at most 100 blocks each, and are followed by
an inter-batch delay except for the last (delays = chunks − 1); and 250
built blocks yield exactly 3 chunks of sizes 100, 100, 52 with exactly
2 delays. -/
theorem c4_batching (nowLocale : Str) (blocks : List NotionBlock) :
    ((batchLoopOf (timestampBlock nowLocale :: dividerBlock :: blocks)).1.flatten =
      timestampBlock nowLocale :: dividerBlock :: blocks) ∧
    (∀ b ∈ (batchLoopOf (timestampBlock nowLocale :: dividerBlock :: blocks)).1,
      b ≠ [] ∧ b.length ≤ 100) ∧
    ((batchLoopOf (timestampBlock nowLocale :: dividerBlock :: blocks)).2 =
      (batchLoopOf (timestampBlock nowLocale :: dividerBlock :: blocks)).1.length - 1) ∧
    (blocks.length = 250 →
      (batchLoopOf (timestampBlock nowLocale :: dividerBlock :: blocks)).1.map
          List.length = [100, 100, 52] ∧
      (batchLoopOf (timestampBlock nowLocale :: dividerBlock :: blocks)).2 = 2) := by
  have hle : (timestampBlock nowLocale :: dividerBlock :: blocks).length ≤
      (timestampBlock nowLocale :: dividerBlock :: blocks).length + 1 := Nat.le_succ _
  exact ⟨batchLoop_flatten _ _ hle, batchLoop_chunk_bounds _ _ hle,
    batchLoop_delays _ _ hle,
    fun h250 => batchLoopOf_252 _ (by simp [h250])⟩

/-- C4 witness: the 250-block instance, with the first chunk exhibited as
a member of the chunk list. -/
theorem c4_batching_witness :
    ((List.replicate 250 NotionBlock.divider).length = 250 ∧
      (batchLoopOf (timestampBlock (str "t") :: dividerBlock ::
          List.replicate 250 NotionBlock.divider)).1.map List.length = [100, 100, 52] ∧
      (batchLoopOf (timestampBlock (str "t") :: dividerBlock ::
          List.replicate 250 NotionBlock.divider)).2 = 2) ∧
    ((timestampBlock (str "t") :: dividerBlock ::
        List.replicate 250 NotionBlock.divider).take 100 ∈
      (batchLoopOf (timestampBlock (str "t") :: dividerBlock ::
          List.replicate 250 NotionBlock.divider)).1 ∧
      (timestampBlock (str "t") :: dividerBlock ::
        List.replicate 250 NotionBlock.divider).take 100 ≠ [] ∧
      ((timestampBlock (str "t") :: dividerBlock ::
        List.replicate 250 NotionBlock.divider).take 100).length ≤ 100) := by
  have h := c4_batching (str "t") (List.replicate 250 NotionBlock.divider)
  have h250 : (List.replicate 250 NotionBlock.divider).length = 250 := by simp
  have hmem : (timestampBlock (str "t") :: dividerBlock ::
      List.replicate 250 NotionBlock.divider).take 100 ∈
      (batchLoopOf (timestampBlock (str "t") :: dividerBlock ::
          List.replicate 250 NotionBlock.divider)).1 := by decide
  exact ⟨⟨h250, (h.2.2.2 h250).1, (h.2.2.2 h250).2⟩,
    ⟨hmem, (h.2.1 _ hmem).1, (h.2.1 _ hmem).2⟩⟩

/-- C8 counterexample: the Scanner does produce a ScannedElement tagged
`h4` (its heading rule matches `h1` through `h6`), refuting the claim
that it never does. -/
theorem c8_counterexample :
    ¬ (∀ e ∈ parseHtmlElements (str "<h4>x</h4>"),
        e.tag ≠ "h4" ∧ e.tag ≠ "h5" ∧ e.tag ≠ "h6") := by
  decide

/-- C8 (amended): the Scanner can produce elements tagged `h4`–`h6` (its
heading rule matches all six levels), but the Block Builder yields no
block for them; only `h1`/`h2`/`h3` elements map to heading blocks of
levels 1/2/3, so heading levels 4–6 never reach the remote page. -/
theorem c8_heading_scope :
    parseHtmlElements (str "<h4>x</h4>") = [{ tag := "h4", content := str "x" }] ∧
    (∀ (verify : Str → Bool) (e : ScannedElement),
      e.tag = "h4" ∨ e.tag = "h5" ∨ e.tag = "h6" →
      elementToNotionBlock verify e = none) ∧
    (∀ (verify : Str → Bool) (e : ScannedElement), e.tag = "h1" →
      elementToNotionBlock verify e = some (.heading1 (htmlToRichText e.content))) ∧
    (∀ (verify : Str → Bool) (e : ScannedElement), e.tag = "h2" →
      elementToNotionBlock verify e = some (.heading2 (htmlToRichText e.content))) ∧
    (∀ (verify : Str → Bool) (e : ScannedElement), e.tag = "h3" →
      elementToNotionBlock verify e = some (.heading3 (htmlToRichText e.content))) := by
  refine ⟨by decide, ?_, ?_, ?_, ?_⟩
  · intro verify e h
    rcases h with h | h | h <;> simp [elementToNotionBlock, h]
  · intro verify e h
    simp [elementToNotionBlock, h]
  · intro verify e h
    simp [elementToNotionBlock, h]
  · intro verify e h
    simp [elementToNotionBlock, h]

/-- C8 witness: a concrete `h4` element yields no block and a concrete
`h1` element yields a level-1 heading block. -/
theorem c8_heading_scope_witness :
    (({ tag := "h4", content := str "x" } : ScannedElement).tag = "h4" ∨
      ({ tag := "h4", content := str "x" } : ScannedElement).tag = "h5" ∨
      ({ tag := "h4", content := str "x" } : ScannedElement).tag = "h6") ∧
    elementToNotionBlock (fun _ => true) { tag := "h4", content := str "x" } = none ∧
    ({ tag := "h1", content := str "y" } : ScannedElement).tag = "h1" ∧
    elementToNotionBlock (fun _ => true) { tag := "h1", content := str "y" } =
      some (.heading1 (htmlToRichText (str "y"))) :=
  ⟨Or.inl rfl,
   c8_heading_scope.2.1 (fun _ => true) { tag := "h4", content := str "x" } (Or.inl rfl),
   rfl,
   c8_heading_scope.2.2.1 (fun _ => true) { tag := "h1", content := str "y" } rfl⟩

/-- C2: invoking `markdownToNotion` with a missing required field fails
immediately with no network call attempted, but the surfaced error is
500-class, not 400-class — the 400-class error thrown by the validation
is caught by the function's own catch-all, which wraps every thrown error
in a fresh 500-class error with the prefixed message. -/
theorem c2_missing_fields :
    (∀ (ops : NetOps) (content parentPageId : Str) (title : Option Str)
        (nowIso nowLocale : Str),
      resultError (markdownToNotion ops content [] parentPageId title nowIso nowLocale) =
        some ⟨str "创建子页面失败: 缺少notion_api_key参数", 500⟩ ∧
      (markdownToNotion ops content [] parentPageId title nowIso nowLocale).2 = []) ∧
    (∀ (ops : NetOps) (content apiKey : Str) (title : Option Str)
        (nowIso nowLocale : Str), apiKey ≠ [] →
      resultError (markdownToNotion ops content apiKey [] title nowIso nowLocale) =
        some ⟨str "创建子页面失败: 缺少notion_page_id参数", 500⟩ ∧
      (markdownToNotion ops content apiKey [] title nowIso nowLocale).2 = []) := by
  constructor
  · intro ops content parentPageId title nowIso nowLocale
    constructor
    · simp only [markdownToNotion, if_pos rfl, if_true, resultError, createError]
      exact congrArg some (by decide)
    · simp only [markdownToNotion, if_pos rfl, if_true]
  · intro ops content apiKey title nowIso nowLocale hkey
    constructor
    · simp only [markdownToNotion, if_neg hkey, if_pos rfl, if_true, resultError,
        createError]
      exact congrArg some (by decide)
    · simp only [markdownToNotion, if_neg hkey, if_pos rfl, if_true]

/-- C2 witness: the missing-page-id case at concrete inputs. -/
theorem c2_missing_fields_witness :
    str "k" ≠ ([] : Str) ∧
    resultError (markdownToNotion testOps (str "x") (str "k") [] none
        (str "iso") (str "loc")) =
      some ⟨str "创建子页面失败: 缺少notion_page_id参数", 500⟩ ∧
    (markdownToNotion testOps (str "x") (str "k") [] none (str "iso") (str "loc")).2 = [] :=
  ⟨by decide,
   (c2_missing_fields.2 testOps (str "x") (str "k") none (str "iso") (str "loc")
     (by decide)).1,
   (c2_missing_fields.2 testOps (str "x") (str "k") none (str "iso") (str "loc")
     (by decide)).2⟩

/-! ## Fuel adequacy

Each fueled function consumes at least one input character per iteration,
so any fuel beyond the input length computes the same result; the chosen
fuel `length + 1` therefore computes exactly the unbounded source loop. -/

/-- Dropping never lengthens a list. -/
theorem drop_length_le (n : Nat) (l : Str) : (l.drop n).length ≤ l.length := by
  rw [List.length_drop]; omega

/-- Step of `removeTagsAux` on a head other than `<`. -/
theorem removeTagsAux_cons_ne (a : Nat) (c : Char) (rest : Str) (hc : c ≠ '<') :
    removeTagsAux (a + 1) (c :: rest) = c :: removeTagsAux a rest := by
  rw [removeTagsAux.eq_def]
  split
  · omega
  · simp_all
  · simp_all
  · simp_all

/-- Fuel beyond the input length is irrelevant to `removeTagsAux`. -/
theorem removeTagsAux_fuel :
    ∀ (n : Nat) (s : Str), s.length ≤ n → ∀ f1 f2, s.length < f1 → s.length < f2 →
      removeTagsAux f1 s = removeTagsAux f2 s := by
  intro n
  induction n with
  | zero =>
    intro s hs f1 f2 h1 h2
    have hnil : s = [] := List.length_eq_zero.mp (Nat.le_zero.mp hs)
    subst hnil
    obtain ⟨a, rfl⟩ : ∃ a, f1 = a + 1 := ⟨f1 - 1, by omega⟩
    obtain ⟨b, rfl⟩ : ∃ b, f2 = b + 1 := ⟨f2 - 1, by omega⟩
    rfl
  | succ n ih =>
    intro s hs f1 f2 h1 h2
    cases s with
    | nil =>
      obtain ⟨a, rfl⟩ : ∃ a, f1 = a + 1 := ⟨f1 - 1, by omega⟩
      obtain ⟨b, rfl⟩ : ∃ b, f2 = b + 1 := ⟨f2 - 1, by omega⟩
      rfl
    | cons c rest =>
      obtain ⟨a, rfl⟩ : ∃ a, f1 = a + 1 := ⟨f1 - 1, by omega⟩
      obtain ⟨b, rfl⟩ : ∃ b, f2 = b + 1 := ⟨f2 - 1, by omega⟩
      simp only [List.length_cons] at hs h1 h2
      by_cases hc : c = '<'
      · subst hc
        show removeTagsAux (a + 1) ('<' :: rest) = removeTagsAux (b + 1) ('<' :: rest)
        rw [show removeTagsAux (a + 1) ('<' :: rest) =
            (match findChar '>' rest with
             | some j => removeTagsAux a (rest.drop (j + 1))
             | none => '<' :: rest) from rfl,
          show removeTagsAux (b + 1) ('<' :: rest) =
            (match findChar '>' rest with
             | some j => removeTagsAux b (rest.drop (j + 1))
             | none => '<' :: rest) from rfl]
        cases hfind : findChar '>' rest with
        | none => rfl
        | some j =>
          have hle := drop_length_le (j + 1) rest
          exact ih _ (by omega) a b (by omega) (by omega)
      · rw [removeTagsAux_cons_ne a c rest hc, removeTagsAux_cons_ne b c rest hc]
        exact congrArg _ (ih rest (by omega) a b (by omega) (by omega))

/-- `removeTags` computes `removeTagsAux` at every adequate fuel. -/
theorem removeTags_fuel (s : Str) (f : Nat) (h : s.length < f) :
    removeTagsAux f s = removeTags s :=
  removeTagsAux_fuel s.length s (Nat.le_refl _) f (s.length + 1) h (Nat.lt_succ_self _)

/-- A successful pre-pass match consumes at least the surrounding markup,
so the suffix after the match is strictly shorter than the input. -/
theorem matchPreCode_suffix_lt (s attrs content suffix : Str)
    (h : matchPreCode s = some (attrs, content, suffix)) :
    suffix.length < s.length := by
  unfold matchPreCode at h
  dsimp only at h
  split at h
  · rename_i hpre
    have h10 : 10 ≤ s.length := by
      have := List.IsPrefix.length_le (List.isPrefixOf_iff_prefix.mp hpre)
      simpa [str] using this
    split at h
    · rename_i r2 heq
      have hlen := congrArg List.length heq
      rw [List.length_drop, List.length_drop] at hlen
      simp only [List.length_cons] at hlen
      split at h
      · rename_i j hfind
        injection h with h
        injection h with h1 h
        injection h with h2 h3
        subst h3
        have := drop_length_le (j + 13) r2
        omega
      · simp at h
    · simp at h
  · simp at h

/-- Fuel beyond the input length is irrelevant to `preprocessAux`. -/
theorem preprocessAux_fuel :
    ∀ (n : Nat) (s : Str), s.length ≤ n → ∀ f1 f2, s.length < f1 → s.length < f2 →
      preprocessAux f1 s = preprocessAux f2 s := by
  intro n
  induction n with
  | zero =>
    intro s hs f1 f2 h1 h2
    have hnil : s = [] := List.length_eq_zero.mp (Nat.le_zero.mp hs)
    subst hnil
    obtain ⟨a, rfl⟩ : ∃ a, f1 = a + 1 := ⟨f1 - 1, by omega⟩
    obtain ⟨b, rfl⟩ : ∃ b, f2 = b + 1 := ⟨f2 - 1, by omega⟩
    rfl
  | succ n ih =>
    intro s hs f1 f2 h1 h2
    cases s with
    | nil =>
      obtain ⟨a, rfl⟩ : ∃ a, f1 = a + 1 := ⟨f1 - 1, by omega⟩
      obtain ⟨b, rfl⟩ : ∃ b, f2 = b + 1 := ⟨f2 - 1, by omega⟩
      rfl
    | cons c rest =>
      obtain ⟨a, rfl⟩ : ∃ a, f1 = a + 1 := ⟨f1 - 1, by omega⟩
      obtain ⟨b, rfl⟩ : ∃ b, f2 = b + 1 := ⟨f2 - 1, by omega⟩
      simp only [List.length_cons] at hs h1 h2
      show (match matchPreCode (c :: rest) with
            | some (attrs, content, suffix) =>
              str "<pre><code" ++ attrs ++ ['>'] ++ escapeCodeNewlines content ++
                str "</code></pre>" ++ preprocessAux a suffix
            | none => c :: preprocessAux a rest) =
          (match matchPreCode (c :: rest) with
            | some (attrs, content, suffix) =>
              str "<pre><code" ++ attrs ++ ['>'] ++ escapeCodeNewlines content ++
                str "</code></pre>" ++ preprocessAux b suffix
            | none => c :: preprocessAux b rest)
      cases hm : matchPreCode (c :: rest) with
      | none =>
        dsimp only
        rw [ih rest (by omega) a b (by omega) (by omega)]
      | some triple =>
        obtain ⟨attrs, content, suffix⟩ := triple
        have hlt := matchPreCode_suffix_lt (c :: rest) attrs content suffix hm
        simp only [List.length_cons] at hlt
        dsimp only
        rw [ih suffix (by omega) a b (by omega) (by omega)]

/-- `preprocessCodeBlocks` computes `preprocessAux` at every adequate fuel. -/
theorem preprocessCodeBlocks_fuel (s : Str) (f : Nat) (h : s.length < f) :
    preprocessAux f s = preprocessCodeBlocks s :=
  preprocessAux_fuel s.length s (Nat.le_refl _) f (s.length + 1) h (Nat.lt_succ_self _)

/-- A successful attribute match consumes the name, the `=`, both quotes
and the value, so the remainder is strictly shorter than the input. -/
theorem tryAttrAt_after_lt (s : Str) (kv : Str × Str) (after : Str)
    (h : tryAttrAt s = some (kv, after)) : after.length < s.length := by
  unfold tryAttrAt at h
  dsimp only at h
  split at h
  · simp at h
  · rename_i hw
    have hw1 : 1 ≤ (s.takeWhile isWordChar).length := by
      cases hlw : s.takeWhile isWordChar with
      | nil => exact absurd hlw hw
      | cons x xs => simp
    split at h
    · rename_i q rest heq
      have hlen := congrArg List.length heq
      rw [List.length_drop] at hlen
      simp only [List.length_cons] at hlen
      split at h
      · rename_i hq
        split at h
        · rename_i q2 rest2 heq2
          have hlen2 := congrArg List.length heq2
          rw [List.length_drop] at hlen2
          simp only [List.length_cons] at hlen2
          split at h
          · injection h with h
            injection h with h1 h2
            subst h2
            omega
          · simp at h
        · simp at h
      · simp at h
    · simp at h

/-- Fuel beyond the input length is irrelevant to `parseAttributesAux`. -/
theorem parseAttributesAux_fuel :
    ∀ (n : Nat) (s : Str), s.length ≤ n → ∀ f1 f2, s.length < f1 → s.length < f2 →
      parseAttributesAux f1 s = parseAttributesAux f2 s := by
  intro n
  induction n with
  | zero =>
    intro s hs f1 f2 h1 h2
    have hnil : s = [] := List.length_eq_zero.mp (Nat.le_zero.mp hs)
    subst hnil
    obtain ⟨a, rfl⟩ : ∃ a, f1 = a + 1 := ⟨f1 - 1, by omega⟩
    obtain ⟨b, rfl⟩ : ∃ b, f2 = b + 1 := ⟨f2 - 1, by omega⟩
    rfl
  | succ n ih =>
    intro s hs f1 f2 h1 h2
    cases s with
    | nil =>
      obtain ⟨a, rfl⟩ : ∃ a, f1 = a + 1 := ⟨f1 - 1, by omega⟩
      obtain ⟨b, rfl⟩ : ∃ b, f2 = b + 1 := ⟨f2 - 1, by omega⟩
      rfl
    | cons c rest =>
      obtain ⟨a, rfl⟩ : ∃ a, f1 = a + 1 := ⟨f1 - 1, by omega⟩
      obtain ⟨b, rfl⟩ : ∃ b, f2 = b + 1 := ⟨f2 - 1, by omega⟩
      simp only [List.length_cons] at hs h1 h2
      show (match tryAttrAt (c :: rest) with
            | some (kv, after) => kv :: parseAttributesAux a after
            | none => parseAttributesAux a rest) =
          (match tryAttrAt (c :: rest) with
            | some (kv, after) => kv :: parseAttributesAux b after
            | none => parseAttributesAux b rest)
      cases hm : tryAttrAt (c :: rest) with
      | none =>
        dsimp only
        exact ih rest (by omega) a b (by omega) (by omega)
      | some pair =>
        obtain ⟨kv, after⟩ := pair
        have hlt := tryAttrAt_after_lt (c :: rest) kv after hm
        simp only [List.length_cons] at hlt
        dsimp only
        rw [ih after (by omega) a b (by omega) (by omega)]

/-- `parseAttributes` computes `parseAttributesAux` at every adequate fuel. -/
theorem parseAttributes_fuel (s : Str) (f : Nat) (h : s.length < f) :
    parseAttributesAux f s = parseAttributes s :=
  parseAttributesAux_fuel s.length s (Nat.le_refl _) f (s.length + 1) h (Nat.lt_succ_self _)

/-- Fuel beyond the input length is irrelevant to `extractRawCells`. -/
theorem extractRawCells_fuel :
    ∀ (n : Nat) (s : Str), s.length ≤ n → ∀ f1 f2, s.length < f1 → s.length < f2 →
      extractRawCells f1 s = extractRawCells f2 s := by
  intro n
  induction n with
  | zero =>
    intro s hs f1 f2 h1 h2
    have hnil : s = [] := List.length_eq_zero.mp (Nat.le_zero.mp hs)
    subst hnil
    obtain ⟨a, rfl⟩ : ∃ a, f1 = a + 1 := ⟨f1 - 1, by omega⟩
    obtain ⟨b, rfl⟩ : ∃ b, f2 = b + 1 := ⟨f2 - 1, by omega⟩
    rfl
  | succ n ih =>
    intro s hs f1 f2 h1 h2
    cases s with
    | nil =>
      obtain ⟨a, rfl⟩ : ∃ a, f1 = a + 1 := ⟨f1 - 1, by omega⟩
      obtain ⟨b, rfl⟩ : ∃ b, f2 = b + 1 := ⟨f2 - 1, by omega⟩
      rfl
    | cons c rest =>
      obtain ⟨a, rfl⟩ : ∃ a, f1 = a + 1 := ⟨f1 - 1, by omega⟩
      obtain ⟨b, rfl⟩ : ∃ b, f2 = b + 1 := ⟨f2 - 1, by omega⟩
      simp only [List.length_cons] at hs h1 h2
      show (if isCellOpen (c :: rest) then
              match findIdxWhere isCellClose ((c :: rest).drop 4) with
              | some j =>
                ((c :: rest).drop 4).take j ::
                  extractRawCells a (((c :: rest).drop 4).drop (j + 5))
              | none => extractRawCells a rest
            else extractRawCells a rest) =
          (if isCellOpen (c :: rest) then
              match findIdxWhere isCellClose ((c :: rest).drop 4) with
              | some j =>
                ((c :: rest).drop 4).take j ::
                  extractRawCells b (((c :: rest).drop 4).drop (j + 5))
              | none => extractRawCells b rest
            else extractRawCells b rest)
      by_cases hopen : isCellOpen (c :: rest)
      · rw [if_pos hopen, if_pos hopen]
        cases hfind : findIdxWhere isCellClose ((c :: rest).drop 4) with
        | none =>
          dsimp only
          exact ih rest (by omega) a b (by omega) (by omega)
        | some j =>
          have hd : (((c :: rest).drop 4).drop (j + 5)).length ≤ rest.length := by
            have h4 : ((c :: rest).drop 4).length ≤ rest.length := by
              rw [List.length_drop]
              simp only [List.length_cons]
              omega
            have := drop_length_le (j + 5) ((c :: rest).drop 4)
            omega
          dsimp only
          rw [ih _ (by omega) a b (by omega) (by omega)]
      · rw [if_neg hopen, if_neg hopen]
        exact ih rest (by omega) a b (by omega) (by omega)

/-- Fuel beyond the input length is irrelevant to `rtLoop`: every
iteration of the tokenizer loop consumes at least one input character. -/
theorem rtLoop_fuel :
    ∀ (n : Nat) (s : Str), s.length ≤ n →
      ∀ (cur : Str) (acc : List RichTextItem) (f1 f2 : Nat),
        s.length < f1 → s.length < f2 → rtLoop f1 s cur acc = rtLoop f2 s cur acc := by
  intro n
  induction n with
  | zero =>
    intro s hs cur acc f1 f2 h1 h2
    have hnil : s = [] := List.length_eq_zero.mp (Nat.le_zero.mp hs)
    subst hnil
    obtain ⟨a, rfl⟩ : ∃ a, f1 = a + 1 := ⟨f1 - 1, by omega⟩
    obtain ⟨b, rfl⟩ : ∃ b, f2 = b + 1 := ⟨f2 - 1, by omega⟩
    rfl
  | succ n ih =>
    intro s hs cur acc f1 f2 h1 h2
    cases s with
    | nil =>
      obtain ⟨a, rfl⟩ : ∃ a, f1 = a + 1 := ⟨f1 - 1, by omega⟩
      obtain ⟨b, rfl⟩ : ∃ b, f2 = b + 1 := ⟨f2 - 1, by omega⟩
      rfl
    | cons c rest =>
      obtain ⟨a, rfl⟩ : ∃ a, f1 = a + 1 := ⟨f1 - 1, by omega⟩
      obtain ⟨b, rfl⟩ : ∃ b, f2 = b + 1 := ⟨f2 - 1, by omega⟩
      simp only [List.length_cons] at hs h1 h2
      have IH : ∀ (X cur' : Str) (acc' : List RichTextItem), X.length ≤ rest.length →
          rtLoop a X cur' acc' = rtLoop b X cur' acc' := by
        intro X cur' acc' hX
        exact ih X (by omega) cur' acc' a b (by omega) (by omega)
      rw [rtLoop, rtLoop]
      by_cases hc : c = '<'
      · rw [if_pos hc, if_pos hc]
        cases hfind : findChar '>' rest with
        | none => rfl
        | some j =>
          dsimp only
          have hr2 : (rest.drop (j + 1)).length ≤ rest.length := drop_length_le _ _
          by_cases hp1 : (str "<strong>").isPrefixOf ('<' :: rest.take (j + 1))
          · rw [if_pos hp1, if_pos hp1]
            cases hsub : findSubIdx (str "</strong>") (rest.drop (j + 1)) with
            | some k =>
              dsimp only
              exact IH _ _ _ (by have := drop_length_le (k + 9) (rest.drop (j + 1)); omega)
            | none => exact IH _ _ _ hr2
          · rw [if_neg hp1, if_neg hp1]
            by_cases hp2 : (str "<em>").isPrefixOf ('<' :: rest.take (j + 1))
            · rw [if_pos hp2, if_pos hp2]
              cases hsub : findSubIdx (str "</em>") (rest.drop (j + 1)) with
              | some k =>
                dsimp only
                exact IH _ _ _ (by have := drop_length_le (k + 5) (rest.drop (j + 1)); omega)
              | none => exact IH _ _ _ hr2
            · rw [if_neg hp2, if_neg hp2]
              by_cases hp3 : (str "<code>").isPrefixOf ('<' :: rest.take (j + 1))
              · rw [if_pos hp3, if_pos hp3]
                cases hsub : findSubIdx (str "</code>") (rest.drop (j + 1)) with
                | some k =>
                  dsimp only
                  exact IH _ _ _ (by have := drop_length_le (k + 7) (rest.drop (j + 1)); omega)
                | none => exact IH _ _ _ hr2
              · rw [if_neg hp3, if_neg hp3]
                by_cases hp4 : (str "<del>").isPrefixOf ('<' :: rest.take (j + 1)) ∨
                    (str "<s>").isPrefixOf ('<' :: rest.take (j + 1))
                · rw [if_pos hp4, if_pos hp4]
                  cases hsub : findSubIdx (str "</del>") (rest.drop (j + 1)) with
                  | some k =>
                    dsimp only
                    exact IH _ _ _
                      (by have := drop_length_le (k + 6) (rest.drop (j + 1)); omega)
                  | none =>
                    dsimp only
                    cases hsub2 : findSubIdx (str "</s>") (rest.drop (j + 1)) with
                    | some k =>
                      dsimp only
                      exact IH _ _ _
                        (by have := drop_length_le (k + 4) (rest.drop (j + 1)); omega)
                    | none => exact IH _ _ _ hr2
                · rw [if_neg hp4, if_neg hp4]
                  exact IH _ _ _ hr2
      · rw [if_neg hc, if_neg hc]
        exact IH _ _ _ (Nat.le_refl _)

/-- `htmlToRichText`'s loop computes the same runs at every adequate fuel. -/
theorem htmlToRichText_fuel (html : Str) (f : Nat) (h : html.length < f) :
    rtLoop f html [] [] = rtLoop (html.length + 1) html [] [] :=
  rtLoop_fuel html.length html (Nat.le_refl _) [] [] f (html.length + 1) h
    (Nat.lt_succ_self _)

/-- Fuel beyond the block count is irrelevant to `batchLoop`: every
iteration submits at least one block. -/
theorem batchLoop_fuel :
    ∀ (n : Nat) (l : List NotionBlock), l.length ≤ n → ∀ f1 f2,
      l.length < f1 → l.length < f2 → batchLoop f1 l = batchLoop f2 l := by
  intro n
  induction n with
  | zero =>
    intro l hl f1 f2 h1 h2
    have hnil : l = [] := List.length_eq_zero.mp (Nat.le_zero.mp hl)
    subst hnil
    rw [batchLoop_nil, batchLoop_nil]
  | succ n ih =>
    intro l hl f1 f2 h1 h2
    cases l with
    | nil => rw [batchLoop_nil, batchLoop_nil]
    | cons x rest =>
      obtain ⟨a, rfl⟩ : ∃ a, f1 = a + 1 := ⟨f1 - 1, by omega⟩
      obtain ⟨b, rfl⟩ : ∃ b, f2 = b + 1 := ⟨f2 - 1, by omega⟩
      simp only [List.length_cons] at hl h1 h2
      rw [batchLoop_cons, batchLoop_cons]
      have hd : ((x :: rest).drop 100).length ≤ rest.length := by
        rw [List.length_drop]
        simp only [List.length_cons]
        omega
      rw [ih _ (by omega) a b (by omega) (by omega)]
